import Mathlib

/-!
Verification of the landscape-client broker core and scheduler contract.

The broker side (`landscape/broker/broker.py`) is embedded directly from the
source: `_message_delivered`, `_broadcast_message`, `get_plugin_objects`,
`stop_plugins`, `reload_configuration` and `exit`.  Collaborators that the
broker imports from modules not present in this tree
(`landscape.lib.twisted_util.gather_results`, `landscape.lib.dbus_util.get_object`,
`landscape.manager.manager.FAILED`, and the reactor in `landscape/reactor.py`)
are modelled from the specification, with doc comments saying so.
-/

namespace Landscape

/-! ## Python value model

DBus plugin calls may return arbitrary Python values; the broker inspects
them with `True not in results`, which uses Python `==` (under which `True`
compares equal to the number 1).  We model the relevant fragment of Python
values, Python equality and Python truthiness.
-/

/-- A fragment of Python values, enough for the results a plugin's
`message` method can return over DBus. -/
inductive PyVal where
  | pyBool (b : Bool)
  | pyInt (n : Int)
  | pyStr (s : String)
  | pyNone
  deriving DecidableEq, Repr

/-- Python `==` on `PyVal`: booleans compare equal to their numeric value
(`True == 1`, `False == 0`); values of unrelated kinds compare unequal. -/
def pyEq : PyVal → PyVal → Bool
  | .pyBool a, .pyBool b => a == b
  | .pyBool a, .pyInt n => (if a then (1 : Int) else 0) == n
  | .pyInt n, .pyBool a => n == (if a then (1 : Int) else 0)
  | .pyInt m, .pyInt n => m == n
  | .pyStr s, .pyStr t => s == t
  | .pyNone, .pyNone => true
  | _, _ => false

/-- Python truthiness on `PyVal`: `False`, `0`, the empty string and `None`
are falsy, everything else is truthy. -/
def truthy : PyVal → Bool
  | .pyBool b => b
  | .pyInt n => n != 0
  | .pyStr s => !(s == "")
  | .pyNone => false

/-- Python `x in xs` membership, which tests with Python `==`. -/
def pyMem (x : PyVal) (xs : List PyVal) : Bool :=
  xs.any fun r => pyEq r x

/-! ## Broker data model -/

/-- Modelled from the spec: `landscape.manager.manager` (not in this tree)
defines the operation-result status constants `SUCCEEDED` and `FAILED`
imported by `broker.py`. -/
inductive OpStatus where
  | SUCCEEDED
  | FAILED
  deriving DecidableEq, Repr

/-- A broker message: an open field mapping with a mandatory `type` field
and an optional `operation-id` field (`message.get("operation-id")`). -/
structure Message where
  mtype : String
  operationId : Option Int
  deriving DecidableEq, Repr

/-- An `operation-result` response message as synthesized by
`_message_delivered`. -/
structure Response where
  rtype : String
  status : OpStatus
  resultText : String
  operationId : Int
  deriving DecidableEq, Repr

/-- The fixed explanatory text interpolated with the message type in
`BrokerDBusObject._message_delivered`. -/
def resultText (mtype : String) : String :=
  "Landscape client failed to handle this request (" ++ mtype ++
  ") because the plugin\nwhich should handle it wasn't available at that time. This could mean that\nthe plugin has been intentionally disabled, or that the client isn't running\nproperly.\n\nPlease contact the Landscape team for more information.\n"

/-- Embeds `BrokerDBusObject._message_delivered`: given the gathered plugin
results and the broadcast message, return the message handed to
`exchange.send` together with its `urgent` flag, if any.  The source sends
exactly when `True not in results and opid is not None and
message["type"] != "resynchronize"`. -/
def messageDelivered (results : List PyVal) (message : Message) :
    Option (Response × Bool) :=
  match message.operationId with
  | none => none
  | some opid =>
      if !(pyMem (.pyBool true) results) && (message.mtype != "resynchronize") then
        some ({ rtype := "operation-result"
              , status := .FAILED
              , resultText := resultText message.mtype
              , operationId := opid }, true)
      else
        none

/-- Embeds `BrokerDBusObject._broadcast_message` composed with the join:
each registered plugin's `message(blob)` result is collected (in
registration order, as `gather_results` preserves order — modelled from the
spec for the missing `landscape.lib.twisted_util`), then
`_message_delivered` runs once.  Returns the list of messages handed to the
exchange. -/
def broadcastMessage (pluginResults : List PyVal) (message : Message) :
    List (Response × Bool) :=
  match messageDelivered pluginResults message with
  | some r => [r]
  | none => []

/-- A plugin registration: the `(bus_name, object_path)` pair stored in
`BrokerDBusObject._registered_plugins`. -/
structure PluginRef where
  busName : String
  objectPath : String
  deriving DecidableEq, Repr

/-- Modelled from the spec: `landscape.lib.dbus_util.get_object` (not in
this tree) resolves a registration to a callable remote handle, retrying
connection for up to `retry_timeout` (`none` means the default window,
`some 0` means fail fast). -/
structure Handle where
  ref : PluginRef
  retryTimeout : Option Nat
  deriving DecidableEq, Repr

/-- Embeds `BrokerDBusObject.get_plugin_objects`: one handle per registered
plugin, each resolved with the given `retry_timeout` (default `None`). -/
def getPluginObjects (plugins : List PluginRef) (retryTimeout : Option Nat) :
    List Handle :=
  plugins.map fun p => ⟨p, retryTimeout⟩

/-- Modelled from the spec: `landscape.lib.twisted_util.gather_results`
(not in this tree) joins a list of deferred results; with
`consume_errors = true` individual failures are swallowed (logged, not
surfaced) and the join settles successfully with the successful results,
as §4.5 of the spec requires for the shutdown path. -/
def gatherResults {α : Type} (consumeErrors : Bool)
    (rs : List (Except String α)) : Except String (List α) :=
  if consumeErrors then
    .ok (rs.filterMap Except.toOption)
  else
    match rs.find? (fun r => !r.toBool) with
    | some (.error e) => .error e
    | _ => .ok (rs.filterMap Except.toOption)

/-- The observable outcome of `stop_plugins`. -/
structure StopOutcome where
  handles : List Handle
  exitCalls : List PluginRef
  result : Except String PyVal
  deriving Repr

/-- Embeds `BrokerDBusObject.stop_plugins`: resolve every registration with
`retry_timeout=0`, invoke `exit()` on every handle, join with
`gather_results(results, consume_errors=True)`, then
`result.addCallback(lambda ignored: None)`.  `exitOutcome` gives each
plugin's `exit()` result. -/
def stopPlugins (plugins : List PluginRef)
    (exitOutcome : PluginRef → Except String PyVal) : StopOutcome :=
  let handles := getPluginObjects plugins (some 0)
  let results := handles.map fun h => exitOutcome h.ref
  let gathered := gatherResults true results
  { handles := handles
  , exitCalls := handles.map Handle.ref
  , result := gathered.map fun _ => PyVal.pyNone }

/-- The observable outcome of `reload_configuration`. -/
structure ReloadOutcome where
  configReloaded : Bool
  stop : StopOutcome
  firedEvents : List String
  deriving Repr

/-- Embeds `BrokerDBusObject.reload_configuration`: `self.config.reload()`
then `return self.stop_plugins()`; no reactor event is fired on this
path. -/
def reloadConfiguration (plugins : List PluginRef)
    (exitOutcome : PluginRef → Except String PyVal) : ReloadOutcome :=
  { configReloaded := true
  , stop := stopPlugins plugins exitOutcome
  , firedEvents := [] }

/-! ## The exit sequence as a trace

`BrokerDBusObject.exit` fires `"pre-exit"`, runs `stop_plugins`, and once
the join settles (modelled from the spec for the missing Deferred
machinery: the join settles only after all constituent plugin-exit calls
have settled) the `addBoth` callback schedules `"post-exit"` through
`reactor.call_later(1, ...)` and the method returns without waiting for it
to fire.
-/

/-- One observable action of the broker's exit path, in causal order. -/
inductive BrokerAction where
  | fireEvent (name : String)
  | pluginExit (p : PluginRef)
  | scheduleLater (delay : Nat) (event : String)
  deriving DecidableEq, Repr

/-- Embeds `BrokerDBusObject.stop_plugins` as the trace of `exit()`
invocations it performs (one per handle resolved with `retry_timeout=0`). -/
def stopPluginsTrace (plugins : List PluginRef) : List BrokerAction :=
  (getPluginObjects plugins (some 0)).map fun h => .pluginExit h.ref

/-- Embeds `BrokerDBusObject.exit` as its causal trace: fire `"pre-exit"`,
invoke every plugin's `exit()`, and — after the join settles —
`call_later(1, ...fire("post-exit"))`.  The trace ends at the method's
return, so the `"post-exit"` firing itself never appears in it. -/
def exitBroker (plugins : List PluginRef) : List BrokerAction :=
  .fireEvent "pre-exit" :: (stopPluginsTrace plugins ++ [.scheduleLater 1 "post-exit"])

/-! ## Scheduler: event bus

`landscape/reactor.py` is not in this tree (only `landscape/tests/test_reactor.py`
is), so the Scheduler is modelled from the spec, §4.1/§4.2.
-/

/-- The behaviour of an event handler when invoked: it either returns a
value or raises an exception carrying a message. -/
inductive HBeh where
  | ret (v : Int)
  | raise (e : String)
  deriving DecidableEq, Repr

/-- Modelled from the spec: an `EventSubscription`
`{id, event_type, handler, priority}` in the Scheduler's event table.
`sid` is the id returned by `call_on`; ids are handed out in increasing
order, so registration order is `sid` order. -/
structure Subscription where
  sid : Nat
  eventType : String
  handler : HBeh
  priority : Int
  active : Bool
  deriving DecidableEq, Repr

/-- Strict lexicographic order on subscriptions: lower priority first,
ties broken by registration order (`sid`). -/
def subLt (a b : Subscription) : Prop :=
  a.priority < b.priority ∨ (a.priority = b.priority ∧ a.sid < b.sid)

/-- Modelled from the spec: the Scheduler's event table; `subs` is kept
sorted by `subLt` (ascending priority, ties in registration order). -/
structure EventTable where
  nextId : Nat
  subs : List Subscription
  deriving DecidableEq, Repr

/-- The empty event table. -/
def emptyTable : EventTable := ⟨0, []⟩

/-- Stable priority insertion: the new subscription goes after every
existing subscription of priority less than or equal to its own. -/
def insertByPriority (s : Subscription) : List Subscription → List Subscription
  | [] => [s]
  | x :: xs =>
      if x.priority ≤ s.priority then x :: insertByPriority s xs
      else s :: x :: xs

/-- Modelled from the spec: `call_on(event_type, handler, priority)`
subscribes a handler and returns a cancellable id. -/
def callOn (t : EventTable) (etype : String) (h : HBeh) (priority : Int) :
    EventTable × Nat :=
  ({ nextId := t.nextId + 1
   , subs := insertByPriority ⟨t.nextId, etype, h, priority, true⟩ t.subs }
  , t.nextId)

/-- `call_on` with the default priority, which is 0. -/
def callOnDefault (t : EventTable) (etype : String) (h : HBeh) :
    EventTable × Nat :=
  callOn t etype h 0

/-- Modelled from the spec: `cancel_call(id)` on an event subscription
deactivates it; unknown or repeated ids are silently ignored. -/
def cancelOn (t : EventTable) (id : Nat) : EventTable :=
  { t with subs := t.subs.map fun s =>
      if s.sid = id then { s with active := false } else s }

/-- The invocation sequence of `fire(event_type)`: all active
subscriptions for the event type, in table order. -/
def subsFor (t : EventTable) (etype : String) : List Subscription :=
  t.subs.filter fun s => s.active && (s.eventType == etype)

/-- The observable outcome of one `fire`. -/
structure FireOutcome where
  invoked : List Nat
  results : List Int
  logs : List (Nat × String)
  deriving DecidableEq, Repr

/-- Modelled from the spec: `fire(event_type)` invokes every active
subscription for the event type in table order, collecting return values
in invocation order; a raising handler is caught, a log entry with its id
and exception is recorded, and it contributes no result. -/
def fire (t : EventTable) (etype : String) : FireOutcome :=
  let seq := subsFor t etype
  { invoked := seq.map Subscription.sid
  , results := seq.filterMap fun s =>
      match s.handler with
      | .ret v => some v
      | .raise _ => none
  , logs := seq.filterMap fun s =>
      match s.handler with
      | .ret _ => none
      | .raise e => some (s.sid, e) }

/-- Well-formedness of the event table: ids are below `nextId`, pairwise
distinct, and the table is sorted by ascending priority with ties in
registration order. -/
def TableWF (t : EventTable) : Prop :=
  (∀ s ∈ t.subs, s.sid < t.nextId) ∧
  t.subs.Pairwise (fun a b => a.sid ≠ b.sid) ∧
  t.subs.Pairwise subLt

/-! ## Scheduler: timed calls and the fake clock

Modelled from the spec, §4.1/§4.2: `call_later`, `call_every`,
`cancel_call`, and the Fake Scheduler's virtual clock with `advance`.
Callback bodies are represented as lists of commands interpreted by the
scheduler, which is what lets a callback cancel its own call.
-/

/-- A command a timed-call callback can perform when fired. -/
inductive Cmd where
  | cancel (id : Nat)
  | note (msg : String)
  deriving DecidableEq, Repr

/-- Modelled from the spec: a `TimedCall`
`{id, due_time, interval, action, active}`; `interval = none` for one-shot
calls created by `call_later`, `some i` for repeating calls created by
`call_every`. -/
structure TimedCall where
  cid : Nat
  due : ℤ
  interval : Option ℤ
  cmds : List Cmd
  active : Bool
  deriving DecidableEq, Repr

/-- Modelled from the spec: the Fake Scheduler state — the virtual clock,
the timer table, the ids fired so far (in firing order) and the notes
recorded by callbacks. -/
structure Sched where
  now : ℤ
  nextId : Nat
  calls : List TimedCall
  fired : List Nat
  notes : List String
  deriving DecidableEq, Repr

/-- The initial Fake Scheduler: virtual clock seeded at 0. -/
def schedInit : Sched := ⟨0, 0, [], [], []⟩

/-- Modelled from the spec: `call_later(delay, action)` schedules a
one-shot call due at `now + delay` and returns its id. -/
def callLater (s : Sched) (delay : ℤ) (cmds : List Cmd) : Sched × Nat :=
  ({ s with nextId := s.nextId + 1
          , calls := s.calls ++ [⟨s.nextId, s.now + delay, none, cmds, true⟩] }
  , s.nextId)

/-- Modelled from the spec: `call_every(interval, action)` schedules a
repeating call whose first firing is due after one interval. -/
def callEvery (s : Sched) (interval : ℤ) (cmds : List Cmd) : Sched × Nat :=
  ({ s with nextId := s.nextId + 1
          , calls := s.calls ++ [⟨s.nextId, s.now + interval, some interval, cmds, true⟩] }
  , s.nextId)

/-- Modelled from the spec: `cancel_call(id)` deactivates the timed call;
idempotent, unknown ids are ignored. -/
def cancelCall (s : Sched) (id : Nat) : Sched :=
  { s with calls := s.calls.map fun c =>
      if c.cid = id then { c with active := false } else c }

/-- Run one callback command. -/
def runCmd (s : Sched) : Cmd → Sched
  | .cancel id => cancelCall s id
  | .note m => { s with notes := s.notes ++ [m] }

/-- Run a callback body. -/
def runCmds (s : Sched) (cs : List Cmd) : Sched := cs.foldl runCmd s

/-- Fire one timed call: record the firing, run its callback, then
reschedule — a one-shot call is deactivated, a repeating call that is
still active after its own callback ran is pushed forward by its
interval (a call cancelled from within its own callback stays
cancelled). -/
def fireCall (s : Sched) (c : TimedCall) : Sched :=
  let s1 := { s with fired := s.fired ++ [c.cid] }
  let s2 := runCmds s1 c.cmds
  { s2 with calls := s2.calls.map fun d =>
      if d.cid = c.cid then
        match d.interval with
        | some i => if d.active then { d with due := d.due + i } else d
        | none => { d with active := false }
      else d }

/-- The first active call already due at `target`, if any. -/
def pickDue (target : ℤ) (calls : List TimedCall) : Option TimedCall :=
  calls.find? fun c => c.active && decide (c.due ≤ target)

/-- The advance loop: repeatedly fire a due active call until none is
left (or the fuel runs out, which bounds cascading reschedules). -/
def advanceLoop : Nat → ℤ → Sched → Sched
  | 0, _, s => s
  | fuel + 1, target, s =>
      match pickDue target s.calls with
      | none => s
      | some c => advanceLoop fuel target (fireCall s c)

/-- Modelled from the spec: `advance(seconds)` moves the virtual clock
forward by exactly `seconds` and synchronously fires every timer that has
become due (with `fuel` bounding cascading reschedules). -/
def advance (fuel : Nat) (seconds : ℤ) (s : Sched) : Sched :=
  advanceLoop fuel (s.now + seconds) { s with now := s.now + seconds }

/-- A sequence of `advance` invocations. -/
def runAdvances (l : List (Nat × ℤ)) (s : Sched) : Sched :=
  l.foldl (fun st p => advance p.1 p.2 st) s

/-! ## Scheduler: thread hand-off -/

/-- Structured error information handed to an errback: exception type,
exception value and traceback. -/
structure ErrInfo where
  etype : String
  evalue : String
  etraceback : String
  deriving DecidableEq, Repr

/-- An observable delivery performed on the loop thread by the thread
hand-off. -/
inductive ThreadEvent where
  | callbackRun (v : Int)
  | errbackRun (e : ErrInfo)
  | loggedError (e : ErrInfo)
  deriving DecidableEq, Repr

/-- Modelled from the spec: `call_in_thread(callback, errback, action)`
runs `action` on a worker thread; the resulting deliveries all happen on
the loop thread via the hand-off.  On success the callback (when
provided) receives the return value; on failure the errback (when
provided) receives the structured error info, and with no errback the
error is logged instead.  The returned list is the loop-thread delivery
trace, in order. -/
def callInThread (hasCallback hasErrback : Bool)
    (action : Except ErrInfo Int) : List ThreadEvent :=
  match action with
  | .ok v => if hasCallback then [.callbackRun v] else []
  | .error e => if hasErrback then [.errbackRun e] else [.loggedError e]

/-! ## Small helper definitions used by the theorems -/

/-- Whether a handler behaviour returns normally. -/
def isRet : HBeh → Bool
  | .ret _ => true
  | .raise _ => false

/-- The value a returning handler produces (0 for a raising one; only used
under an `isRet` guard). -/
def retValue : HBeh → Int
  | .ret v => v
  | .raise _ => 0

/-- Invariant for a repeating call that cancels itself from inside its own
callback: every call carrying the id has the self-cancel command, the id
has fired at most once, and once it has fired every call carrying the id
is inactive. -/
def CancelInv (cid : Nat) (s : Sched) : Prop :=
  (∀ c ∈ s.calls, c.cid = cid → Cmd.cancel cid ∈ c.cmds) ∧
  s.fired.count cid ≤ 1 ∧
  (1 ≤ s.fired.count cid → ∀ c ∈ s.calls, c.cid = cid → c.active = false)

/-- The event table of `ReactorTest.test_event_priority`: handlers
subscribed with priorities 5, 3, 4, in that registration order. -/
def priorityTable : EventTable :=
  (callOn (callOn (callOn emptyTable "foobar" (.ret 5) 5).1
    "foobar" (.ret 3) 3).1 "foobar" (.ret 4) 4).1

/-- The event table of `ReactorTest.test_exploding_event_handler`: three
default-priority handlers, the middle one raising `ZeroDivisionError`. -/
def explodingTable : EventTable :=
  (callOnDefault (callOnDefault (callOnDefault emptyTable "foobar" (.ret 1)).1
    "foobar" (.raise "ZeroDivisionError")).1 "foobar" (.ret 3)).1

end Landscape

namespace Landscape

/-! ## Theorems -/

/-- Python membership of `True` in a list of booleans is `any`. -/
theorem pyMem_true_map_pyBool (bs : List Bool) :
    pyMem (.pyBool true) (bs.map PyVal.pyBool) = bs.any fun b => b := by
  unfold pyMem
  induction bs with
  | nil => rfl
  | cons b bs ih =>
      simp only [List.map_cons, List.any_cons]
      rw [ih]
      congr 1
      simp [pyEq]

/-- Characterization of a synthesized response: whenever
`_message_delivered` hands a message to the exchange, it is urgent, of
type `operation-result`, FAILED, carries the original operation id and the
fixed text. -/
theorem messageDelivered_eq_some (results : List PyVal) (m : Message)
    (r : Response) (u : Bool) (h : messageDelivered results m = some (r, u)) :
    u = true ∧ r.rtype = "operation-result" ∧ r.status = OpStatus.FAILED ∧
      m.operationId = some r.operationId ∧ r.resultText = resultText m.mtype := by
  unfold messageDelivered at h
  cases hop : m.operationId with
  | none => simp [hop] at h
  | some opid =>
      simp only [hop] at h
      by_cases hcond :
          (!pyMem (.pyBool true) results && (m.mtype != "resynchronize")) = true
      · rw [if_pos hcond] at h
        have h2 := Option.some.inj h
        cases h2
        exact ⟨rfl, rfl, rfl, rfl, rfl⟩
      · rw [if_neg hcond] at h
        exact absurd h (by simp)

/-- `_message_delivered` sends exactly when `True not in results`, the
operation id is present, and the type is not `"resynchronize"`. -/
theorem broadcast_ne_nil_iff (results : List PyVal) (m : Message) :
    broadcastMessage results m ≠ [] ↔
      (pyMem (.pyBool true) results = false ∧ m.operationId.isSome = true ∧
        m.mtype ≠ "resynchronize") := by
  cases hop : m.operationId with
  | none => simp [broadcastMessage, messageDelivered, hop]
  | some opid =>
      by_cases hmem : pyMem (.pyBool true) results = true
      · simp [broadcastMessage, messageDelivered, hop, hmem]
      · rw [Bool.not_eq_true] at hmem
        by_cases hty : m.mtype = "resynchronize"
        · simp [broadcastMessage, messageDelivered, hop, hmem, hty]
        · simp [broadcastMessage, messageDelivered, hop, hmem, hty]

/-- C1: a FAILED `operation-result` is handed to the exchange, marked
urgent, with the original operation id and the fixed explanatory text,
exactly when no handle returned a truthy handled result (handles return
booleans, per the remote endpoint interface), the message has an
`operation-id`, and its type is not `"resynchronize"`; with zero plugins
and an operation id present, exactly one such message is sent. -/
theorem broker_unhandled_operation_response (bres : List Bool) (m : Message) :
    (broadcastMessage (bres.map PyVal.pyBool) m ≠ [] ↔
      ((¬ ∃ b ∈ bres, truthy (PyVal.pyBool b) = true) ∧
        m.operationId.isSome = true ∧ m.mtype ≠ "resynchronize"))
    ∧ (∀ r u, (r, u) ∈ broadcastMessage (bres.map PyVal.pyBool) m →
        u = true ∧ r.rtype = "operation-result" ∧ r.status = OpStatus.FAILED ∧
        m.operationId = some r.operationId ∧ r.resultText = resultText m.mtype)
    ∧ (m.operationId.isSome = true → m.mtype ≠ "resynchronize" →
        (broadcastMessage (([] : List Bool).map PyVal.pyBool) m).length = 1) := by
  refine ⟨?_, ?_, ?_⟩
  · rw [broadcast_ne_nil_iff, pyMem_true_map_pyBool]
    constructor
    · rintro ⟨hany, hs, hty⟩
      refine ⟨?_, hs, hty⟩
      rintro ⟨b, hb, hbt⟩
      have hb' : b = true := by simpa [truthy] using hbt
      subst hb'
      have htrue : bres.any (fun b => b) = true := List.any_eq_true.mpr ⟨true, hb, rfl⟩
      rw [htrue] at hany
      exact Bool.noConfusion hany
    · rintro ⟨hnex, hs, hty⟩
      refine ⟨?_, hs, hty⟩
      cases hab : bres.any fun b => b with
      | false => rfl
      | true =>
          obtain ⟨b, hb, hbt⟩ := List.any_eq_true.mp hab
          refine absurd ⟨b, hb, ?_⟩ hnex
          simpa [truthy] using hbt
  · intro r u hru
    have hmd : messageDelivered (bres.map PyVal.pyBool) m = some (r, u) := by
      unfold broadcastMessage at hru
      rcases hc : messageDelivered (bres.map PyVal.pyBool) m with _ | x
      · rw [hc] at hru; simp at hru
      · rw [hc] at hru
        simp only [List.mem_singleton] at hru
        subst hru
        rfl
    exact messageDelivered_eq_some _ _ _ _ hmd
  · intro hsome hty
    cases hop : m.operationId with
    | none => rw [hop] at hsome; simp at hsome
    | some opid =>
        simp [broadcastMessage, messageDelivered, hop, pyMem, hty]

/-- Witness for C1 at the zero-plugin broadcast scenario of the spec
(`operation-id = 1`, `type = "X"`). -/
theorem broker_unhandled_operation_response_witness :
    (broadcastMessage (([] : List Bool).map PyVal.pyBool)
        { mtype := "X", operationId := some 1 }).length = 1 :=
  (broker_unhandled_operation_response [] { mtype := "X", operationId := some 1 }).2.2
    rfl (by decide)

/-- C3: the post-broadcast check tests `True not in results` with Python
equality, so a truthy result that does not compare equal to `True` (for
example a non-empty string) does not count as handled: when no result
compares equal to `True`, the FAILED operation-result is still sent even
though a truthy result was returned. -/
theorem handled_means_eq_true (results : List PyVal) (m : Message) (opid : Int)
    (hop : m.operationId = some opid)
    (hty : m.mtype ≠ "resynchronize")
    (hnone : ∀ r ∈ results, pyEq r (.pyBool true) = false)
    (hsome : ∃ r ∈ results, truthy r = true) :
    broadcastMessage results m =
      [({ rtype := "operation-result"
        , status := .FAILED
        , resultText := resultText m.mtype
        , operationId := opid }, true)] := by
  have hmem : pyMem (.pyBool true) results = false := by
    simp only [pyMem, List.any_eq_false]
    intro r hr
    simp [hnone r hr]
  simp [broadcastMessage, messageDelivered, hop, hmem, hty]

/-- Witness for C3: one registered plugin returns the truthy non-`True`
string `"yes"`; the FAILED response is synthesized anyway. -/
theorem handled_means_eq_true_witness :
    broadcastMessage [PyVal.pyStr "yes"] { mtype := "X", operationId := some 1 } =
      [({ rtype := "operation-result"
        , status := .FAILED
        , resultText := resultText "X"
        , operationId := 1 }, true)] :=
  handled_means_eq_true [PyVal.pyStr "yes"] { mtype := "X", operationId := some 1 } 1
    rfl (by decide) (by decide) ⟨.pyStr "yes", by decide⟩

/-- C7: `stop_plugins` resolves every handle with `retry_timeout = 0`,
invokes `exit()` on every registered plugin, and its joined result settles
successfully with `None` no matter how many of the plugin-exit calls
failed. -/
theorem stop_plugins_always_succeeds (plugins : List PluginRef)
    (exitOutcome : PluginRef → Except String PyVal) :
    (stopPlugins plugins exitOutcome).result = Except.ok PyVal.pyNone
    ∧ (∀ h ∈ (stopPlugins plugins exitOutcome).handles, h.retryTimeout = some 0)
    ∧ (stopPlugins plugins exitOutcome).exitCalls = plugins := by
  refine ⟨rfl, ?_, ?_⟩
  · intro h hh
    simp only [stopPlugins, getPluginObjects, List.mem_map] at hh
    obtain ⟨p, _, rfl⟩ := hh
    rfl
  · have hid : (Handle.ref ∘ fun p => ({ ref := p, retryTimeout := some 0 } : Handle))
        = id := by
      funext p; rfl
    simp [stopPlugins, getPluginObjects, List.map_map, hid]

/-- Witness for C7 with one plugin whose `exit()` fails. -/
theorem stop_plugins_always_succeeds_witness :
    (stopPlugins [⟨"svc", "/obj"⟩] fun _ => Except.error "gone").result =
      Except.ok PyVal.pyNone :=
  (stop_plugins_always_succeeds [⟨"svc", "/obj"⟩] fun _ => Except.error "gone").1

/-- C9: `reload_configuration` reloads the configuration and then runs
only the plugin-stop phase — every registered plugin's handle is resolved
with zero retry timeout and told to `exit()` — and fires neither
`"pre-exit"` nor `"post-exit"`. -/
theorem reload_configuration_scope (plugins : List PluginRef)
    (exitOutcome : PluginRef → Except String PyVal) :
    (reloadConfiguration plugins exitOutcome).configReloaded = true
    ∧ (reloadConfiguration plugins exitOutcome).stop = stopPlugins plugins exitOutcome
    ∧ (∀ h ∈ (reloadConfiguration plugins exitOutcome).stop.handles,
        h.retryTimeout = some 0)
    ∧ (reloadConfiguration plugins exitOutcome).stop.exitCalls = plugins
    ∧ (reloadConfiguration plugins exitOutcome).firedEvents = [] := by
  refine ⟨rfl, rfl, ?_, ?_, rfl⟩
  · intro h hh
    simp only [reloadConfiguration, stopPlugins, getPluginObjects, List.mem_map] at hh
    obtain ⟨p, _, rfl⟩ := hh
    rfl
  · have hid : (Handle.ref ∘ fun p => ({ ref := p, retryTimeout := some 0 } : Handle))
        = id := by
      funext p; rfl
    simp [reloadConfiguration, stopPlugins, getPluginObjects, List.map_map, hid]

/-- Witness for C9 with one registered plugin. -/
theorem reload_configuration_scope_witness :
    (reloadConfiguration [⟨"svc", "/obj"⟩] fun _ => Except.ok PyVal.pyNone).stop.exitCalls
      = [⟨"svc", "/obj"⟩] :=
  (reload_configuration_scope [⟨"svc", "/obj"⟩] fun _ => Except.ok PyVal.pyNone).2.2.2.1

/-- C2: in the causal trace of `exit()`, the `"pre-exit"` firing precedes
every plugin `exit()` invocation; the (sole) scheduling of `"post-exit"` —
through `call_later` with the fixed delay 1 — comes after every plugin
exit call has settled; every registered plugin is told to exit; and the
trace ends (the method returns) without the `"post-exit"` event ever
being fired in it. -/
theorem exit_sequence_order (ps : List PluginRef) :
    (exitBroker ps).head? = some (BrokerAction.fireEvent "pre-exit")
    ∧ (∀ (i : ℕ) (p : PluginRef),
        (exitBroker ps)[i]? = some (BrokerAction.pluginExit p) →
        ∃ j : ℕ, j < i ∧ (exitBroker ps)[j]? = some (BrokerAction.fireEvent "pre-exit"))
    ∧ (∀ p ∈ ps, BrokerAction.pluginExit p ∈ exitBroker ps)
    ∧ (∀ (i d : ℕ) (e : String),
        (exitBroker ps)[i]? = some (BrokerAction.scheduleLater d e) →
        d = 1 ∧ e = "post-exit" ∧
        ∀ (j : ℕ) (p : PluginRef),
          (exitBroker ps)[j]? = some (BrokerAction.pluginExit p) → j < i)
    ∧ BrokerAction.fireEvent "post-exit" ∉ exitBroker ps := by
  have htr : exitBroker ps =
      BrokerAction.fireEvent "pre-exit" ::
        (ps.map BrokerAction.pluginExit ++ [BrokerAction.scheduleLater 1 "post-exit"]) := by
    simp [exitBroker, stopPluginsTrace, getPluginObjects, List.map_map, Function.comp]
  refine ⟨by rw [htr]; rfl, ?_, ?_, ?_, ?_⟩
  · intro i p hi
    refine ⟨0, ?_, by rw [htr]; simp⟩
    rcases Nat.eq_zero_or_pos i with hz | hpos
    · subst hz; rw [htr] at hi; simp at hi
    · exact hpos
  · intro p hp
    rw [htr]
    simp [hp]
  · intro i d e hi
    rw [htr] at hi
    rcases i with _ | k
    · simp at hi
    · rw [List.getElem?_cons_succ, List.getElem?_append] at hi
      rcases Nat.lt_or_ge k (ps.map BrokerAction.pluginExit).length with hk | hk
      · rw [if_pos hk, List.getElem?_map] at hi
        rcases hmk : ps[k]? with _ | q
        · rw [hmk] at hi; simp at hi
        · rw [hmk] at hi; simp at hi
      · rw [if_neg (Nat.not_lt_of_ge hk)] at hi
        rcases Nat.eq_or_lt_of_le hk with heq | hlt
        · rw [← heq, Nat.sub_self] at hi
          simp at hi
          refine ⟨hi.1.symm, hi.2.symm, ?_⟩
          intro j p hj
          rw [htr] at hj
          rcases j with _ | k'
          · simp at hj
          · rw [List.getElem?_cons_succ, List.getElem?_append] at hj
            have hk' : k' < (ps.map BrokerAction.pluginExit).length := by
              by_contra hge
              rw [if_neg hge] at hj
              rcases hd : k' - (ps.map BrokerAction.pluginExit).length with _ | d2
              · rw [hd] at hj; simp at hj
              · rw [hd] at hj; simp at hj
            omega
        · have hge1 : k - (ps.map BrokerAction.pluginExit).length ≥ 1 := by omega
          rcases hd : k - (ps.map BrokerAction.pluginExit).length with _ | d2
          · omega
          · rw [hd] at hi; simp at hi
  · rw [htr]
    intro hmem
    simp at hmem

/-- Witness for C2: with one registered plugin, the plugin-exit entry at
index 1 is preceded by the `"pre-exit"` firing. -/
theorem exit_sequence_order_witness :
    ∃ j, j < 1 ∧ (exitBroker [⟨"svc", "/obj"⟩])[j]? =
      some (BrokerAction.fireEvent "pre-exit") :=
  (exit_sequence_order [⟨"svc", "/obj"⟩]).2.1 1 ⟨"svc", "/obj"⟩ rfl

/-! ### Event-bus lemmas -/

/-- `subLt` gives priority monotonicity. -/
theorem subLt_priority_le {a b : Subscription} (h : subLt a b) :
    a.priority ≤ b.priority := by
  rcases h with h | ⟨h, _⟩
  · exact le_of_lt h
  · exact le_of_eq h

/-- Membership in a stable priority insertion. -/
theorem mem_insertByPriority (s x : Subscription) (l : List Subscription) :
    x ∈ insertByPriority s l ↔ x = s ∨ x ∈ l := by
  induction l with
  | nil => simp [insertByPriority]
  | cons y ys ih =>
      by_cases hy : y.priority ≤ s.priority
      · simp only [insertByPriority, if_pos hy, List.mem_cons, ih]
        tauto
      · simp only [insertByPriority, if_neg hy, List.mem_cons]

/-- Stable priority insertion of a fresh (largest-id) subscription keeps
the table sorted by ascending priority with ties in registration order. -/
theorem insertByPriority_pairwise_subLt (s : Subscription) (l : List Subscription)
    (hs : l.Pairwise subLt) (hfresh : ∀ x ∈ l, x.sid < s.sid) :
    (insertByPriority s l).Pairwise subLt := by
  induction l with
  | nil => simp [insertByPriority, List.pairwise_cons]
  | cons y ys ih =>
      rw [List.pairwise_cons] at hs
      obtain ⟨hy_all, hys⟩ := hs
      by_cases hy : y.priority ≤ s.priority
      · rw [insertByPriority, if_pos hy, List.pairwise_cons]
        constructor
        · intro z hz
          rcases (mem_insertByPriority s z ys).mp hz with rfl | hzys
          · rcases lt_or_eq_of_le hy with hlt | heq
            · exact Or.inl hlt
            · exact Or.inr ⟨heq, hfresh y (List.mem_cons_self y ys)⟩
          · exact hy_all z hzys
        · exact ih hys fun x hx => hfresh x (List.mem_cons_of_mem y hx)
      · rw [insertByPriority, if_neg hy, List.pairwise_cons]
        constructor
        · intro z hz
          rcases List.mem_cons.mp hz with hzy | hzys
          · rw [hzy]
            exact Or.inl (lt_of_not_le hy)
          · exact Or.inl (lt_of_lt_of_le (lt_of_not_le hy)
              (subLt_priority_le (hy_all z hzys)))
        · rw [List.pairwise_cons]
          exact ⟨hy_all, hys⟩

/-- Stable priority insertion of a fresh subscription keeps ids pairwise
distinct. -/
theorem insertByPriority_pairwise_ne (s : Subscription) (l : List Subscription)
    (hs : l.Pairwise fun a b => a.sid ≠ b.sid)
    (hfresh : ∀ x ∈ l, x.sid < s.sid) :
    (insertByPriority s l).Pairwise fun a b => a.sid ≠ b.sid := by
  induction l with
  | nil => simp [insertByPriority, List.pairwise_cons]
  | cons y ys ih =>
      rw [List.pairwise_cons] at hs
      obtain ⟨hy_all, hys⟩ := hs
      by_cases hy : y.priority ≤ s.priority
      · rw [insertByPriority, if_pos hy, List.pairwise_cons]
        constructor
        · intro z hz
          rcases (mem_insertByPriority s z ys).mp hz with rfl | hzys
          · exact Nat.ne_of_lt (hfresh y (List.mem_cons_self y ys))
          · exact hy_all z hzys
        · exact ih hys fun x hx => hfresh x (List.mem_cons_of_mem y hx)
      · rw [insertByPriority, if_neg hy, List.pairwise_cons]
        constructor
        · intro z hz
          rcases List.mem_cons.mp hz with hzy | hzys
          · rw [hzy]
            exact (Nat.ne_of_lt (hfresh y (List.mem_cons_self y ys))).symm
          · exact (Nat.ne_of_lt (hfresh z (List.mem_cons_of_mem y hzys))).symm
        · rw [List.pairwise_cons]
          exact ⟨hy_all, hys⟩

/-- The empty table is well-formed. -/
theorem tableWF_empty : TableWF emptyTable := by
  refine ⟨?_, ?_, ?_⟩ <;> simp [emptyTable, TableWF]

/-- `call_on` preserves table well-formedness. -/
theorem tableWF_callOn (t : EventTable) (etype : String) (h : HBeh) (pri : Int)
    (hwf : TableWF t) : TableWF (callOn t etype h pri).1 := by
  obtain ⟨hbound, hne, hsort⟩ := hwf
  refine ⟨?_, ?_, ?_⟩
  · intro s hsm
    rcases (mem_insertByPriority _ s t.subs).mp hsm with rfl | hmem
    · exact Nat.lt_succ_self t.nextId
    · exact Nat.lt_succ_of_lt (hbound s hmem)
  · exact insertByPriority_pairwise_ne _ _ hne fun x hx => hbound x hx
  · exact insertByPriority_pairwise_subLt _ _ hsort fun x hx => hbound x hx

/-- `cancel_call` on a subscription preserves table well-formedness. -/
theorem tableWF_cancelOn (t : EventTable) (id : Nat) (hwf : TableWF t) :
    TableWF (cancelOn t id) := by
  obtain ⟨hbound, hne, hsort⟩ := hwf
  have hproj : ∀ s : Subscription,
      ((if s.sid = id then { s with active := false } else s) : Subscription).sid = s.sid ∧
      ((if s.sid = id then { s with active := false } else s) : Subscription).priority
        = s.priority := by
    intro s
    by_cases hc : s.sid = id <;> simp [hc]
  refine ⟨?_, ?_, ?_⟩
  · intro s hsm
    simp only [cancelOn, List.mem_map] at hsm
    obtain ⟨x, hx, rfl⟩ := hsm
    rw [(hproj x).1]
    exact hbound x hx
  · refine List.Pairwise.map _ ?_ hne
    intro a b hab
    rw [(hproj a).1, (hproj b).1]
    exact hab
  · refine List.Pairwise.map _ ?_ hsort
    intro a b hab
    rcases hab with hlt | ⟨heq, hsid⟩
    · exact Or.inl (by rw [(hproj a).2, (hproj b).2]; exact hlt)
    · exact Or.inr ⟨by rw [(hproj a).2, (hproj b).2]; exact heq,
        by rw [(hproj a).1, (hproj b).1]; exact hsid⟩

/-- Collecting handler results skips exactly the raising handlers and
keeps invocation order. -/
theorem filterMap_handler_eq (l : List Subscription) :
    (l.filterMap fun s => match s.handler with
      | .ret v => some v
      | .raise _ => none)
      = (l.filter fun s => isRet s.handler).map fun s => retValue s.handler := by
  induction l with
  | nil => rfl
  | cons x xs ih =>
      cases hx : x.handler with
      | ret v =>
          simp [List.filterMap_cons, List.filter_cons, hx, isRet, retValue, ih]
      | raise e =>
          simp [List.filterMap_cons, List.filter_cons, hx, isRet, ih]

/-- C4: `fire` invokes all active handlers for the event type in strictly
ascending priority order (ties in registration order, i.e. id order, since
`call_on` hands out increasing ids), each at most once; `call_on` without
a priority registers at priority 0; and the result list collects the
handlers' return values in invocation order. -/
theorem fire_priority_order (t : EventTable) (etype : String) (h : HBeh)
    (hwf : TableWF t) :
    (subsFor t etype).Pairwise subLt
    ∧ (∀ s : Subscription, s ∈ subsFor t etype ↔
        (s ∈ t.subs ∧ s.active = true ∧ s.eventType = etype))
    ∧ (fire t etype).invoked = (subsFor t etype).map Subscription.sid
    ∧ (fire t etype).invoked.Nodup
    ∧ ((∀ s ∈ subsFor t etype, isRet s.handler = true) →
        (fire t etype).results = (subsFor t etype).map fun s => retValue s.handler)
    ∧ (∃ s ∈ (callOnDefault t etype h).1.subs,
        s.sid = (callOnDefault t etype h).2 ∧ s.priority = 0 ∧
        s.eventType = etype ∧ s.handler = h ∧ s.active = true) := by
  obtain ⟨hbound, hne, hsort⟩ := hwf
  have hsubl : List.Sublist (subsFor t etype) t.subs := List.filter_sublist t.subs
  refine ⟨hsort.sublist hsubl, ?_, rfl, ?_, ?_, ?_⟩
  · intro s
    rw [subsFor, List.mem_filter]
    simp [Bool.and_eq_true]
  · have hpair : (subsFor t etype).Pairwise fun a b => a.sid ≠ b.sid :=
      hne.sublist hsubl
    exact List.Pairwise.map _ (fun a b hab => hab) hpair
  · intro hall
    show (subsFor t etype).filterMap _ = _
    rw [filterMap_handler_eq]
    congr 1
    rw [List.filter_eq_self]
    exact hall
  · refine ⟨⟨t.nextId, etype, h, 0, true⟩, ?_, rfl, rfl, rfl, rfl, rfl⟩
    exact (mem_insertByPriority _ _ _).mpr (Or.inl rfl)

/-- Witness for C4 at the table of `test_event_priority` (priorities 5, 3,
4 registered in that order): the invocation sequence is sorted by
`subLt`. -/
theorem fire_priority_order_witness :
    (subsFor priorityTable "foobar").Pairwise subLt :=
  (fire_priority_order priorityTable "foobar" (.ret 0)
    (tableWF_callOn _ _ _ _ (tableWF_callOn _ _ _ _
      (tableWF_callOn _ _ _ _ tableWF_empty)))).1

/-- C5: when a subscribed handler raises, it is still invoked and a log
entry with its id and exception is recorded; every other active handler
for the event (registered before or after it) is still invoked; the
result list is exactly the non-raising handlers' values in invocation
order (the raising handler contributes no entry); and `fire` returns
normally (it is a total function of the embedding). -/
theorem fire_exception_isolated (t : EventTable) (etype : String)
    (s : Subscription) (e : String)
    (hs : s ∈ t.subs) (hact : s.active = true) (hty : s.eventType = etype)
    (herr : s.handler = .raise e) :
    s.sid ∈ (fire t etype).invoked
    ∧ (s.sid, e) ∈ (fire t etype).logs
    ∧ (∀ s' ∈ t.subs, s'.active = true → s'.eventType = etype →
        s'.sid ∈ (fire t etype).invoked)
    ∧ ((fire t etype).results =
        (((subsFor t etype).filter fun s' => isRet s'.handler).map
          fun s' => retValue s'.handler))
    ∧ (∀ v ∈ (fire t etype).results,
        ∃ s' ∈ subsFor t etype, s'.handler = .ret v) := by
  have hmem : s ∈ subsFor t etype := by
    rw [subsFor, List.mem_filter]
    exact ⟨hs, by simp [hact, hty]⟩
  refine ⟨?_, ?_, ?_, ?_, ?_⟩
  · exact List.mem_map.mpr ⟨s, hmem, rfl⟩
  · show (s.sid, e) ∈ (subsFor t etype).filterMap _
    rw [List.mem_filterMap]
    exact ⟨s, hmem, by rw [herr]⟩
  · intro s' hs' hact' hty'
    refine List.mem_map.mpr ⟨s', ?_, rfl⟩
    rw [subsFor, List.mem_filter]
    exact ⟨hs', by simp [hact', hty']⟩
  · exact filterMap_handler_eq _
  · intro v hv
    show ∃ s' ∈ subsFor t etype, s'.handler = .ret v
    have := List.mem_filterMap.mp hv
    obtain ⟨s', hs', hg⟩ := this
    refine ⟨s', hs', ?_⟩
    cases hh : s'.handler with
    | ret w => rw [hh] at hg; cases Option.some.inj hg; rfl
    | raise e2 => rw [hh] at hg; exact absurd hg (by simp)

/-- Witness for C5 at the table of `test_exploding_event_handler`: the
raising middle handler (id 1) produces a `ZeroDivisionError` log entry. -/
theorem fire_exception_isolated_witness :
    ((1 : Nat), "ZeroDivisionError") ∈ (fire explodingTable "foobar").logs :=
  (fire_exception_isolated explodingTable "foobar"
    ⟨1, "foobar", .raise "ZeroDivisionError", 0, true⟩ "ZeroDivisionError"
    (by decide) rfl rfl rfl).2.1

/-! ### Thread hand-off -/

/-- C8: `call_in_thread` delivers, on the loop thread, exactly one
callback invocation with the action's return value on success (and no
errback); exactly one errback invocation with the structured error
information (exception type, value, traceback) on failure with an errback
supplied (and no callback); and on failure without an errback exactly one
log entry, with neither callback nor errback run. -/
theorem call_in_thread_dispatch (cb eb : Bool) (action : Except ErrInfo Int) :
    (∀ v : Int, action = .ok v →
        callInThread true eb action = [.callbackRun v])
    ∧ (∀ e : ErrInfo, action = .error e →
        callInThread cb true action = [.errbackRun e])
    ∧ (∀ e : ErrInfo, action = .error e →
        callInThread cb false action = [.loggedError e]) := by
  refine ⟨?_, ?_, ?_⟩
  · intro v hv
    subst hv
    rfl
  · intro e he
    subst he
    rfl
  · intro e he
    subst he
    rfl

/-- Witness for C8 at the scenario of `test_call_in_thread_with_callback`
(the action returns 32). -/
theorem call_in_thread_dispatch_witness :
    callInThread true false (Except.ok 32) = [ThreadEvent.callbackRun 32] :=
  (call_in_thread_dispatch true false (Except.ok 32)).1 32 rfl

/-! ### Fake clock lemmas -/

/-- Callback commands never move the virtual clock. -/
theorem runCmds_now (cs : List Cmd) (s : Sched) : (runCmds s cs).now = s.now := by
  induction cs generalizing s with
  | nil => rfl
  | cons c cs ih =>
      rw [runCmds, List.foldl_cons]
      show (runCmds (runCmd s c) cs).now = s.now
      rw [ih]
      cases c <;> rfl

/-- Firing a call never moves the virtual clock. -/
theorem fireCall_now (s : Sched) (c : TimedCall) : (fireCall s c).now = s.now := by
  show (runCmds _ c.cmds).now = s.now
  rw [runCmds_now]

/-- The advance loop never moves the virtual clock. -/
theorem advanceLoop_now (fuel : Nat) (target : ℤ) (s : Sched) :
    (advanceLoop fuel target s).now = s.now := by
  induction fuel generalizing s with
  | zero => rfl
  | succ f ih =>
      rw [advanceLoop]
      cases hp : pickDue target s.calls with
      | none => rfl
      | some c => rw [ih, fireCall_now]

/-- If nothing is due, the advance loop is the identity. -/
theorem advanceLoop_none (fuel : Nat) (target : ℤ) (s : Sched)
    (h : pickDue target s.calls = none) : advanceLoop fuel target s = s := by
  cases fuel with
  | zero => rfl
  | succ f => rw [advanceLoop, h]

/-- One step of the advance loop when a call is due. -/
theorem advanceLoop_succ_some (fuel : Nat) (target : ℤ) (s : Sched)
    (c : TimedCall) (h : pickDue target s.calls = some c) :
    advanceLoop (fuel + 1) target s = advanceLoop fuel target (fireCall s c) := by
  rw [advanceLoop, h]

/-- C10: the fake clock starts at 0 and `advance(s)` moves it forward by
exactly `s`; a call scheduled with `call_later(2, f)` does not fire after
a first `advance(1)` and fires (exactly once) after a second `advance(1)`,
whatever the loop fuel. -/
theorem fake_clock_semantics (st : Sched) (f : Nat) (s : ℤ) :
    schedInit.now = 0
    ∧ (advance f s st).now = st.now + s
    ∧ (∀ f1 : Nat,
        (advance f1 1 (callLater schedInit 2 [.note "cb"]).1).notes = []
        ∧ (advance f1 1 (callLater schedInit 2 [.note "cb"]).1).fired = [])
    ∧ (∀ f1 f2 : Nat, 1 ≤ f2 →
        (advance f2 1 (advance f1 1 (callLater schedInit 2 [.note "cb"]).1)).notes
          = ["cb"]
        ∧ (advance f2 1 (advance f1 1 (callLater schedInit 2 [.note "cb"]).1)).fired
          = [0]) := by
  have hsel1 : ∀ f1 : Nat, advance f1 1 (callLater schedInit 2 [.note "cb"]).1
      = ⟨1, 1, [⟨0, 2, none, [.note "cb"], true⟩], [], []⟩ := by
    intro f1
    unfold advance
    exact (advanceLoop_none _ _ _ (by decide)).trans (by decide)
  refine ⟨rfl, ?_, ?_, ?_⟩
  · unfold advance
    rw [advanceLoop_now]
  · intro f1
    rw [hsel1 f1]
    exact ⟨rfl, rfl⟩
  · intro f1 f2 hf2
    rw [hsel1 f1]
    obtain ⟨k, rfl⟩ : ∃ k, f2 = k + 1 := ⟨f2 - 1, by omega⟩
    have hfin : advance (k + 1) 1
        (⟨1, 1, [⟨0, 2, none, [.note "cb"], true⟩], [], []⟩ : Sched)
        = ⟨2, 1, [⟨0, 2, none, [.note "cb"], false⟩], [0], ["cb"]⟩ := by
      unfold advance
      rw [advanceLoop_succ_some k _ _ ⟨0, 2, none, [.note "cb"], true⟩ (by decide)]
      exact (advanceLoop_none _ _ _ (by decide)).trans (by decide)
    rw [hfin]
    exact ⟨rfl, rfl⟩

/-- Witness for C10 at the scenario of `test_incremental_advance`. -/
theorem fake_clock_semantics_witness :
    (advance 1 1 (advance 0 1 (callLater schedInit 2 [.note "cb"]).1)).notes = ["cb"]
    ∧ (advance 1 1 (advance 0 1 (callLater schedInit 2 [.note "cb"]).1)).fired = [0] :=
  (fake_clock_semantics schedInit 0 0).2.2.2 0 1 (by decide)

/-! ### Cancel-from-callback lemmas -/

/-- Callback commands never touch the fired log. -/
theorem runCmd_fired (s : Sched) (cmd : Cmd) : (runCmd s cmd).fired = s.fired := by
  cases cmd <;> rfl

/-- Callback bodies never touch the fired log. -/
theorem runCmds_fired (cs : List Cmd) (s : Sched) :
    (runCmds s cs).fired = s.fired := by
  induction cs generalizing s with
  | nil => rfl
  | cons c cs ih =>
      rw [runCmds, List.foldl_cons]
      show (runCmds (runCmd s c) cs).fired = s.fired
      rw [ih, runCmd_fired]

/-- Firing a call appends exactly its id to the fired log. -/
theorem fireCall_fired (s : Sched) (c : TimedCall) :
    (fireCall s c).fired = s.fired ++ [c.cid] := by
  show (runCmds _ c.cmds).fired = _
  rw [runCmds_fired]

/-- Every call after one callback command came from a call with the same
id and body, and was active if it still is. -/
theorem calls_back_runCmd (s : Sched) (cmd : Cmd) (c' : TimedCall)
    (h : c' ∈ (runCmd s cmd).calls) :
    ∃ c0 ∈ s.calls, c0.cid = c'.cid ∧ c0.cmds = c'.cmds ∧
      (c'.active = true → c0.active = true) := by
  cases cmd with
  | cancel id =>
      simp only [runCmd, cancelCall, List.mem_map] at h
      obtain ⟨c0, hc0, rfl⟩ := h
      by_cases hc : c0.cid = id
      · exact ⟨c0, hc0, by simp [hc], by simp [hc], by simp [hc]⟩
      · exact ⟨c0, hc0, by simp [hc], by simp [hc], by simp [hc]⟩
  | note m => exact ⟨c', h, rfl, rfl, fun h2 => h2⟩

/-- Every call after a callback body came from a call with the same id
and body, and was active if it still is. -/
theorem calls_back_runCmds (s : Sched) (cs : List Cmd) (c' : TimedCall)
    (h : c' ∈ (runCmds s cs).calls) :
    ∃ c0 ∈ s.calls, c0.cid = c'.cid ∧ c0.cmds = c'.cmds ∧
      (c'.active = true → c0.active = true) := by
  induction cs generalizing s with
  | nil => exact ⟨c', h, rfl, rfl, fun h2 => h2⟩
  | cons c cs ih =>
      rw [runCmds, List.foldl_cons] at h
      obtain ⟨c1, hc1, hcid1, hcmds1, hmono1⟩ := ih (runCmd s c) h
      obtain ⟨c0, hc0, hcid0, hcmds0, hmono0⟩ := calls_back_runCmd s c c1 hc1
      exact ⟨c0, hc0, hcid0.trans hcid1, hcmds0.trans hcmds1,
        fun h2 => hmono0 (hmono1 h2)⟩

/-- Every call after a firing came from a call with the same id and body,
and was active if it still is. -/
theorem calls_back_fireCall (s : Sched) (c : TimedCall) (c' : TimedCall)
    (h : c' ∈ (fireCall s c).calls) :
    ∃ c0 ∈ s.calls, c0.cid = c'.cid ∧ c0.cmds = c'.cmds ∧
      (c'.active = true → c0.active = true) := by
  simp only [fireCall, List.mem_map] at h
  obtain ⟨d, hd, rfl⟩ := h
  obtain ⟨c0, hc0, hcid0, hcmds0, hmono0⟩ :=
    calls_back_runCmds { s with fired := s.fired ++ [c.cid] } c.cmds d hd
  by_cases hdc : d.cid = c.cid
  · cases hint : d.interval with
    | none =>
        refine ⟨c0, hc0, ?_, ?_, ?_⟩ <;> simp [hdc, hint, hcid0, hcmds0]
    | some i =>
        by_cases hda : d.active = true
        · refine ⟨c0, hc0, ?_, ?_, ?_⟩ <;>
            simp [hdc, hint, hda, hcid0, hcmds0, hmono0]
        · refine ⟨c0, hc0, ?_, ?_, ?_⟩ <;>
            simp [hdc, hint, hda, hcid0, hcmds0, hmono0]
  · exact ⟨c0, hc0, by simp [hdc, hcid0], by simp [hdc, hcmds0],
      by simp only [if_neg hdc]; exact hmono0⟩

/-- Inactivity of every call carrying an id is preserved by anything whose
calls all trace back with the same id and monotone activity. -/
theorem allInactive_of_back {pre post : Sched} (cid : Nat)
    (hback : ∀ c' ∈ post.calls, ∃ c0 ∈ pre.calls, c0.cid = c'.cid ∧
      c0.cmds = c'.cmds ∧ (c'.active = true → c0.active = true))
    (h : ∀ c0 ∈ pre.calls, c0.cid = cid → c0.active = false) :
    ∀ c' ∈ post.calls, c'.cid = cid → c'.active = false := by
  intro c' hc' hcid
  obtain ⟨c0, hc0, hcid0, _, hmono⟩ := hback c' hc'
  cases hca : c'.active with
  | false => rfl
  | true =>
      have hc0a : c0.active = true := hmono hca
      have : c0.active = false := h c0 hc0 (hcid0.trans hcid)
      rw [this] at hc0a
      exact Bool.noConfusion hc0a

/-- The self-cancel command property is preserved by anything whose calls
all trace back with the same id and body. -/
theorem cancelCmd_of_back {pre post : Sched} (cid : Nat)
    (hback : ∀ c' ∈ post.calls, ∃ c0 ∈ pre.calls, c0.cid = c'.cid ∧
      c0.cmds = c'.cmds ∧ (c'.active = true → c0.active = true))
    (h : ∀ c0 ∈ pre.calls, c0.cid = cid → Cmd.cancel cid ∈ c0.cmds) :
    ∀ c' ∈ post.calls, c'.cid = cid → Cmd.cancel cid ∈ c'.cmds := by
  intro c' hc' hcid
  obtain ⟨c0, hc0, hcid0, hcmds0, _⟩ := hback c' hc'
  rw [← hcmds0]
  exact h c0 hc0 (hcid0.trans hcid)

/-- Running a callback body that contains the self-cancel command leaves
every call carrying the id inactive. -/
theorem runCmds_cancel_all (s : Sched) (cs : List Cmd) (cid : Nat)
    (h : Cmd.cancel cid ∈ cs) :
    ∀ c' ∈ (runCmds s cs).calls, c'.cid = cid → c'.active = false := by
  induction cs generalizing s with
  | nil => simp at h
  | cons c0 cs ih =>
      rw [runCmds, List.foldl_cons]
      rcases List.mem_cons.mp h with heq | hmem
      · have hall : ∀ c' ∈ (runCmd s c0).calls, c'.cid = cid → c'.active = false := by
          rw [← heq]
          intro c' hc' hcid
          simp only [runCmd, cancelCall, List.mem_map] at hc'
          obtain ⟨d, hd, rfl⟩ := hc'
          by_cases hq : d.cid = cid
          · simp [hq]
          · rw [if_neg hq] at hcid ⊢
            exact absurd hcid hq
        intro c' hc' hcid
        obtain ⟨d, hd, hcidd, _, hmono⟩ :=
          calls_back_runCmds (runCmd s c0) cs c' hc'
        cases hca : c'.active with
        | false => rfl
        | true =>
            have hda := hmono hca
            have := hall d hd (hcidd.trans hcid)
            rw [this] at hda
            exact Bool.noConfusion hda
      · exact ih (runCmd s c0) hmem

/-- Firing any active call preserves the cancel-from-own-callback
invariant. -/
theorem cancelInv_fireCall (cid : Nat) (s : Sched) (c : TimedCall)
    (hmem : c ∈ s.calls) (hact : c.active = true) (hinv : CancelInv cid s) :
    CancelInv cid (fireCall s c) := by
  obtain ⟨h1, h2, h3⟩ := hinv
  have hfired : (fireCall s c).fired = s.fired ++ [c.cid] := fireCall_fired s c
  by_cases hc : c.cid = cid
  · have hcnt0 : s.fired.count cid = 0 := by
      by_contra hne
      have h1le : 1 ≤ s.fired.count cid := by omega
      have hia := h3 h1le c hmem hc
      rw [hact] at hia
      exact Bool.noConfusion hia
    have hcnt1 : (fireCall s c).fired.count cid = 1 := by
      rw [hfired, List.count_append, hcnt0, hc]
      simp
    have hall : ∀ c' ∈ (fireCall s c).calls, c'.cid = cid → c'.active = false := by
      have hcan : Cmd.cancel cid ∈ c.cmds := h1 c hmem hc
      have hall2 := runCmds_cancel_all { s with fired := s.fired ++ [c.cid] }
        c.cmds cid hcan
      intro c' hc' hcid
      simp only [fireCall, List.mem_map] at hc'
      obtain ⟨d, hd, rfl⟩ := hc'
      by_cases hdc : d.cid = c.cid
      · have hdinact : d.active = false := hall2 d hd (hdc.trans hc)
        cases hint : d.interval with
        | none => simp [hdc, hint]
        | some i => simp [hdc, hint, hdinact]
      · rw [if_neg hdc] at hcid ⊢
        exact absurd (hcid.trans hc.symm) hdc
    refine ⟨cancelCmd_of_back cid (calls_back_fireCall s c) h1, ?_, fun _ => hall⟩
    rw [hcnt1]
  · have hcnt : (fireCall s c).fired.count cid = s.fired.count cid := by
      rw [hfired, List.count_append]
      simp [List.count_singleton', hc]
    refine ⟨cancelCmd_of_back cid (calls_back_fireCall s c) h1, ?_, ?_⟩
    · rw [hcnt]; exact h2
    · intro hge
      rw [hcnt] at hge
      exact allInactive_of_back cid (calls_back_fireCall s c) (h3 hge)

/-- A due pick returns an active member of the timer table. -/
theorem pickDue_mem_active (target : ℤ) (calls : List TimedCall) (c : TimedCall)
    (h : pickDue target calls = some c) : c ∈ calls ∧ c.active = true := by
  unfold pickDue at h
  refine ⟨List.mem_of_find?_eq_some h, ?_⟩
  have hp := List.find?_some h
  rw [Bool.and_eq_true] at hp
  exact hp.1

/-- The advance loop preserves the cancel-from-own-callback invariant. -/
theorem cancelInv_advanceLoop (fuel : Nat) (target : ℤ) (cid : Nat) (s : Sched)
    (hinv : CancelInv cid s) : CancelInv cid (advanceLoop fuel target s) := by
  induction fuel generalizing s with
  | zero => exact hinv
  | succ f ih =>
      rw [advanceLoop]
      cases hp : pickDue target s.calls with
      | none => exact hinv
      | some c =>
          obtain ⟨hmem, hact⟩ := pickDue_mem_active target s.calls c hp
          exact ih _ (cancelInv_fireCall cid s c hmem hact hinv)

/-- `advance` preserves the cancel-from-own-callback invariant. -/
theorem cancelInv_advance (f : Nat) (d : ℤ) (cid : Nat) (s : Sched)
    (hinv : CancelInv cid s) : CancelInv cid (advance f d s) :=
  cancelInv_advanceLoop f (s.now + d) cid { s with now := s.now + d } hinv

/-- Any sequence of advances preserves the cancel-from-own-callback
invariant. -/
theorem cancelInv_runAdvances (l : List (Nat × ℤ)) (cid : Nat) (s : Sched)
    (hinv : CancelInv cid s) : CancelInv cid (runAdvances l s) := by
  induction l generalizing s with
  | nil => exact hinv
  | cons p ps ih =>
      rw [runAdvances, List.foldl_cons]
      exact ih _ (cancelInv_advance p.1 p.2 cid s hinv)

/-- C6: a repeating call whose own callback cancels it fires at most once
over any sequence of `advance` invocations, whatever fuel each advance
gets — in particular no firing already queued for the same tick happens
after the cancellation (the loop re-checks the active flag before every
firing). -/
theorem cancel_from_own_callback_fires_once (st : Sched) (cid : Nat)
    (l : List (Nat × ℤ))
    (hc : ∀ c ∈ st.calls, c.cid = cid → Cmd.cancel cid ∈ c.cmds)
    (h0 : st.fired.count cid = 0) :
    ((runAdvances l st).fired.count cid) ≤ 1 := by
  have hinv : CancelInv cid st := by
    refine ⟨hc, by rw [h0]; omega, ?_⟩
    intro h1
    rw [h0] at h1
    omega
  exact (cancelInv_runAdvances l cid st hinv).2.1

/-- Witness for C6 at the scenario of
`test_cancel_call_every_after_first_call`: a `call_every(0, ...)` whose
callback cancels itself, advanced past its due time, fires exactly
once. -/
theorem cancel_from_own_callback_fires_once_witness :
    ((runAdvances [(5, 1)]
        (callEvery schedInit 0 [Cmd.cancel 0, Cmd.note "hi"]).1).fired.count 0 = 1)
    ∧ ((runAdvances [(5, 1)]
        (callEvery schedInit 0 [Cmd.cancel 0, Cmd.note "hi"]).1).fired.count 0 ≤ 1) :=
  ⟨by decide,
    cancel_from_own_callback_fires_once
      (callEvery schedInit 0 [Cmd.cancel 0, Cmd.note "hi"]).1 0 [(5, 1)]
      (by decide) (by decide)⟩

end Landscape
